import Mathlib

/-!
Verification of the embedded semantic-search subsystem of the notes
application (`src-tauri/src/embeddings.rs`).

The Rust code is shallowly embedded:
* `HashMap<K, V>` is modelled as an association list with at most one live
  entry per key; `ainsert` replaces, `aerase` deletes, `alookup` finds the
  entry, matching `HashMap::insert` / `HashMap::remove` / `HashMap::get`.
* `f32` values are idealised: vector components as `ℝ` (the normalisation
  step divides by a square root) and neighbor distances as `ℚ` (only their
  ordering matters for the cutoff test).
* The third-party `hnsw_rs` index is a black box: its stored points are the
  list of inserted `(vector, id)` pairs, and the neighbor list produced by
  `Hnsw::search` is a universally quantified parameter of
  `EmbeddingManager.search`, so every theorem about search holds for every
  possible answer of the ANN library.
* Rust methods on `&mut self` returning `Result<T, EmbeddingError>` become
  functions `EmbeddingManager → args → EmbeddingManager × Except
  EmbeddingError T`: the first component is the state after the call
  (unchanged on the error paths that the code leaves unchanged).
-/

set_option linter.unusedVariables false

/-- The `Note` struct of `lib.rs`: external id, title, content. -/
structure Note where
  id : String
  title : String
  content : String
deriving DecidableEq, Repr

/-- `enum EmbeddingError { NotFound }`. -/
inductive EmbeddingError where
  | NotFound
deriving DecidableEq, Repr

/-- A neighbor returned by `hnsw_rs`'s `Hnsw::search`: the internal data id
and the (cosine) distance of the stored vector from the query. -/
structure Neighbor where
  d_id : Nat
  distance : ℚ
deriving DecidableEq, Repr

/-- The `Hnsw` index, reduced to what the claims observe: the multiset of
inserted `(vector, internal id)` points.  The graph structure, the
construction parameters (capacity 10000, 16 neighbors, 16 layers,
ef_construction 200) and the approximate-search algorithm are internal to
the `hnsw_rs` dependency and are left abstract. -/
structure Hnsw where
  points : List (List ℝ × Nat)

/-- `EmbeddingManager`: optional index, forward map `note_to_id`, reverse
map `id_to_note`, and the monotone internal id counter `next_id`. -/
structure EmbeddingManager where
  index : Option Hnsw
  note_to_id : List (String × Nat)
  id_to_note : List (Nat × String)
  next_id : Nat

/-- `HashMap::get`: first entry with the given key, if any. -/
def alookup {α β : Type} [DecidableEq α] : List (α × β) → α → Option β
  | [], _ => none
  | (k, v) :: rest, a => if k = a then some v else alookup rest a

/-- Delete every entry with the given key (a `HashMap` holds at most one). -/
def aerase {α β : Type} [DecidableEq α] : List (α × β) → α → List (α × β)
  | [], _ => []
  | (k, v) :: rest, a => if k = a then aerase rest a else (k, v) :: aerase rest a

/-- `HashMap::insert`: bind the key to the value, replacing any old entry. -/
def ainsert {α β : Type} [DecidableEq α] (m : List (α × β)) (k : α) (v : β) :
    List (α × β) :=
  (k, v) :: aerase m k

/-- The accumulation loop of `generate_simple_embedding`:
`for (i, _c) in text.chars().enumerate() { embedding[(_c as usize) % 128] += 1.0 / (i as f32 + 1.0) }`. -/
def accumulate : List Char → Nat → List ℚ → List ℚ
  | [], _, e => e
  | c :: cs, i, e =>
    accumulate cs (i + 1)
      (e.set (c.toNat % 128) (e.getD (c.toNat % 128) 0 + 1 / ((i : ℚ) + 1)))

/-- The 128-bucket accumulator of `generate_simple_embedding` before the
normalisation step (`let mut embedding = vec![0.0; 128]; for ... { ... }`). -/
def rawEmbedding (text : String) : List ℚ :=
  accumulate text.data 0 (List.replicate 128 0)

/-- `embedding.iter().map(|x| x.powi(2)).sum::<f32>()`: the squared
Euclidean magnitude. -/
def sqMagnitude (e : List ℚ) : ℚ :=
  (e.map fun x => x * x).sum

/-- `EmbeddingManager::generate_simple_embedding`: accumulate the
per-character weights, then divide every component by the Euclidean
magnitude when it is positive (`if magnitude > 0.0`). -/
noncomputable def generate_simple_embedding (text : String) : List ℝ :=
  let e := rawEmbedding text
  let magnitude : ℝ := Real.sqrt ((sqMagnitude e : ℚ) : ℝ)
  if magnitude > 0 then e.map fun (x : ℚ) => (x : ℝ) / magnitude
  else e.map fun (x : ℚ) => (x : ℝ)

/-- Euclidean norm of a real vector. -/
noncomputable def euclideanNorm (v : List ℝ) : ℝ :=
  Real.sqrt ((v.map fun x => x ^ 2).sum)

/-- `EmbeddingManager::new()`: no index, empty mappings, counter 0. -/
def EmbeddingManager.new : EmbeddingManager :=
  { index := none, note_to_id := [], id_to_note := [], next_id := 0 }

/-- `EmbeddingManager::initialize`: allocate a fresh empty `Hnsw` (with the
fixed construction constants) and store it; in the code this always
returns `Ok(())`, so the model returns just the updated state. -/
def initIndex (m : EmbeddingManager) : EmbeddingManager :=
  { m with index := some { points := [] } }

/-- `EmbeddingManager::add_note`: lazily allocate the index, embed
`"{title} {content}"`, insert the vector under the fresh internal id
`next_id`, record both mapping directions, bump the counter.  Always
returns `Ok(())`. -/
noncomputable def add_note (m : EmbeddingManager) (note : Note) :
    EmbeddingManager × Except EmbeddingError Unit :=
  let m1 := if m.index.isNone then initIndex m else m
  let pts := (m1.index.getD { points := [] }).points
  let text := note.title ++ " " ++ note.content
  let embedding := generate_simple_embedding text
  let id := m1.next_id
  ({ index := some { points := pts ++ [(embedding, id)] },
     note_to_id := ainsert m1.note_to_id note.id id,
     id_to_note := ainsert m1.id_to_note id note.id,
     next_id := m1.next_id + 1 }, Except.ok ())

/-- `EmbeddingManager::remove_note`: delete the forward entry (as
`HashMap::remove` does) and the reverse entry for the internal id it held;
`Err(NotFound)` — and no state change — when the external id is absent.
The vector itself stays inside the index. -/
def remove_note (m : EmbeddingManager) (note : Note) :
    EmbeddingManager × Except EmbeddingError Unit :=
  match alookup m.note_to_id note.id with
  | some id =>
      ({ m with note_to_id := aerase m.note_to_id note.id,
                id_to_note := aerase m.id_to_note id }, Except.ok ())
  | none => (m, Except.error EmbeddingError.NotFound)

/-- `EmbeddingManager::update_note`: remove the old entry when the forward
map contains the id (propagating its error with `?`), then add. -/
noncomputable def update_note (m : EmbeddingManager) (note : Note) :
    EmbeddingManager × Except EmbeddingError Unit :=
  if (alookup m.note_to_id note.id).isSome then
    match remove_note m note with
    | (m2, Except.ok _) => add_note m2 note
    | (m2, Except.error e) => (m2, Except.error e)
  else add_note m note

/-- The spec's description of `update`: `remove(document)` — ignoring a
"not found" outcome — followed by `add(document)`.  Modelled from the
spec's words, to be compared with `update_note`. -/
noncomputable def remove_then_add (m : EmbeddingManager) (note : Note) :
    EmbeddingManager × Except EmbeddingError Unit :=
  add_note (remove_note m note).1 note

/-- The cutoff test of the search loop:
`if let Some(cutoff) = distance_cutoff { if neighbor.distance > cutoff { continue; } }`. -/
def cutoffExceeded : Option ℚ → ℚ → Bool
  | some cutoff, d => decide (cutoff < d)
  | none, _ => false

/-- The result-collection loop of `EmbeddingManager::search`: skip a
neighbor beyond the cutoff, then push the external id found for its
internal id in `id_to_note` (skipping ids absent from that map). -/
def searchLoop (id2note : List (Nat × String)) (cutoff : Option ℚ) :
    List Neighbor → List String
  | [] => []
  | n :: rest =>
    if cutoffExceeded cutoff n.distance then searchLoop id2note cutoff rest
    else
      match alookup id2note n.d_id with
      | some note_id => note_id :: searchLoop id2note cutoff rest
      | none => searchLoop id2note cutoff rest

/-- `EmbeddingManager::search`: `Ok(vec![])` when the index was never
initialised; otherwise run the collection loop over the neighbor list the
index returned for `generate_simple_embedding(query)` with the requested
`k` (and `ef_search = 50`).  `neighbors` stands for that answer of the
third-party ANN search, universally quantified in every theorem.  The
method mutates nothing, so the state comes back unchanged. -/
def search (m : EmbeddingManager) (query : String) (k : Nat)
    (neighbors : List Neighbor) (distance_cutoff : Option ℚ) :
    EmbeddingManager × Except EmbeddingError (List String) :=
  if m.index.isNone then (m, Except.ok [])
  else (m, Except.ok (searchLoop m.id_to_note distance_cutoff neighbors))

/-- The `for note in notes { self.add_note(note)?; }` loop of
`rebuild_index`. -/
noncomputable def addAll (m : EmbeddingManager) :
    List Note → EmbeddingManager × Except EmbeddingError Unit
  | [] => (m, Except.ok ())
  | n :: rest =>
    match add_note m n with
    | (m2, Except.ok _) => addAll m2 rest
    | (m2, Except.error e) => (m2, Except.error e)

/-- `EmbeddingManager::rebuild_index`: drop the index, clear both maps,
reset the counter, allocate a fresh index, re-add every note in order. -/
noncomputable def rebuild_index (m : EmbeddingManager) (notes : List Note) :
    EmbeddingManager × Except EmbeddingError Unit :=
  let cleared : EmbeddingManager :=
    { index := none, note_to_id := [], id_to_note := [], next_id := 0 }
  addAll (initIndex cleared) notes

/-- Extract the list of a successful search result (`Ok` payload). -/
def okList : Except EmbeddingError (List String) → List String
  | Except.ok l => l
  | Except.error _ => []

/-- The mapping invariant of the manager: every forward pair is mirrored in
the reverse map, and every internal id in either map is below `next_id`. -/
def MapInv (m : EmbeddingManager) : Prop :=
  (∀ ext iid, alookup m.note_to_id ext = some iid →
    alookup m.id_to_note iid = some ext) ∧
  (∀ ext iid, alookup m.note_to_id ext = some iid → iid < m.next_id) ∧
  (∀ iid ext, alookup m.id_to_note iid = some ext → iid < m.next_id)

/-- No internal id — live or tombstoned — resolves to the external id `a`
in the reverse map, so search can never surface `a`. -/
def NoGhost (a : String) (m : EmbeddingManager) : Prop :=
  ∀ iid, alookup m.id_to_note iid ≠ some a

/-- One call of the manager's public API, for reasoning about operation
sequences. -/
inductive Op where
  | addOp (note : Note)
  | updateOp (note : Note)
  | removeOp (note : Note)
  | rebuildOp (notes : List Note)
  | searchOp (query : String) (k : Nat) (neighbors : List Neighbor)
      (cutoff : Option ℚ)

/-- State after one API call. -/
noncomputable def applyOp (m : EmbeddingManager) : Op → EmbeddingManager
  | Op.addOp n => (add_note m n).1
  | Op.updateOp n => (update_note m n).1
  | Op.removeOp n => (remove_note m n).1
  | Op.rebuildOp ns => (rebuild_index m ns).1
  | Op.searchOp q k nb c => (search m q k nb c).1

/-- State after a sequence of API calls. -/
noncomputable def applyOps (m : EmbeddingManager) : List Op → EmbeddingManager
  | [] => m
  | op :: rest => applyOps (applyOp m op) rest

/-- The operation neither adds nor updates a document with external id `a`
(and never rebuilds with such a document). -/
def avoidsId (a : String) : Op → Prop
  | Op.addOp n => n.id ≠ a
  | Op.updateOp n => n.id ≠ a
  | Op.removeOp _ => True
  | Op.rebuildOp ns => ∀ n ∈ ns, n.id ≠ a
  | Op.searchOp _ _ _ _ => True

/-- Concrete document used by counterexamples and witnesses. -/
def docA : Note := { id := "a", title := "hello", content := "world" }

/-- A second concrete document. -/
def docB : Note := { id := "b", title := "beta", content := "body" }

/-- A different document carrying the same external id as `docA`. -/
def docA2 : Note := { id := "a", title := "again", content := "duplicate" }

/-- The state after `add_note(docA)` twice from a fresh manager: forward
map `{"a" ↦ 1}`, reverse map `{1 ↦ "a", 0 ↦ "a"}` — internal id 0 is a
tombstone in the sense of the spec's data-model section. -/
noncomputable def doubleAddState : EmbeddingManager :=
  (add_note (add_note EmbeddingManager.new docA).1 docA).1

/-- `doubleAddState` after a successful `remove_note(docA)`: the forward
map is empty, yet internal id 0 still resolves to `"a"` in the reverse
map. -/
noncomputable def removedDupState : EmbeddingManager :=
  (remove_note doubleAddState docA).1

theorem alookup_nil {α β : Type} [DecidableEq α] (a : α) :
    alookup ([] : List (α × β)) a = none := rfl

theorem aerase_nil {α β : Type} [DecidableEq α] (a : α) :
    aerase ([] : List (α × β)) a = [] := rfl

theorem alookup_aerase_self {α β : Type} [DecidableEq α]
    (m : List (α × β)) (k : α) : alookup (aerase m k) k = none := by
  induction m with
  | nil => rfl
  | cons e rest ih =>
    obtain ⟨k', v⟩ := e
    by_cases h : k' = k
    · simpa [aerase, h] using ih
    · simp [aerase, h, alookup, ih]

theorem alookup_aerase_ne {α β : Type} [DecidableEq α]
    (m : List (α × β)) (k k' : α) (h : k' ≠ k) :
    alookup (aerase m k) k' = alookup m k' := by
  induction m with
  | nil => rfl
  | cons e rest ih =>
    obtain ⟨k'', v⟩ := e
    have hkk' : k ≠ k' := fun h4 => h h4.symm
    by_cases h2 : k'' = k
    · simp [aerase, h2, alookup, hkk', ih]
    · by_cases h3 : k'' = k'
      · subst h3
        simp [aerase, h2, alookup, hkk', h]
      · simp [aerase, h2, alookup, h3, ih]

theorem alookup_ainsert_self {α β : Type} [DecidableEq α]
    (m : List (α × β)) (k : α) (v : β) : alookup (ainsert m k v) k = some v := by
  simp [ainsert, alookup]

theorem alookup_ainsert_ne {α β : Type} [DecidableEq α]
    (m : List (α × β)) (k k' : α) (v : β) (h : k' ≠ k) :
    alookup (ainsert m k v) k' = alookup m k' := by
  have h2 : k ≠ k' := fun h3 => h h3.symm
  simp [ainsert, alookup, h2, alookup_aerase_ne m k k' h]

theorem accumulate_length (cs : List Char) :
    ∀ (i : Nat) (e : List ℚ), (accumulate cs i e).length = e.length := by
  induction cs with
  | nil => intro i e; rfl
  | cons c rest ih =>
    intro i e
    simp [accumulate, ih, List.length_set]

theorem sum_set_add (e : List ℚ) :
    ∀ (idx : Nat) (w : ℚ), idx < e.length →
      (e.set idx (e.getD idx 0 + w)).sum = e.sum + w := by
  induction e with
  | nil =>
    intro idx w h
    simp at h
  | cons x rest ih =>
    intro idx w h
    cases idx with
    | zero =>
      simp [List.set, List.getD]
      ring
    | succ n =>
      have h2 : n < rest.length := by simpa using h
      rw [List.getD_cons_succ, List.set_cons_succ, List.sum_cons, List.sum_cons,
        ih n w h2]
      ring

theorem accumulate_sum_le (cs : List Char) :
    ∀ (i : Nat) (e : List ℚ), e.length = 128 → e.sum ≤ (accumulate cs i e).sum := by
  induction cs with
  | nil => intro i e h; exact le_refl _
  | cons c rest ih =>
    intro i e h
    have hlen : c.toNat % 128 < e.length := by
      rw [h]
      exact Nat.mod_lt _ (by norm_num)
    have hset := sum_set_add e (c.toNat % 128) (1 / ((i : ℚ) + 1)) hlen
    have hw : (0 : ℚ) ≤ 1 / ((i : ℚ) + 1) := by positivity
    have hrec := ih (i + 1) (e.set (c.toNat % 128) (e.getD (c.toNat % 128) 0 + 1 / ((i : ℚ) + 1)))
      (by rw [List.length_set, h])
    calc e.sum ≤ e.sum + 1 / ((i : ℚ) + 1) := by linarith
      _ = (e.set (c.toNat % 128) (e.getD (c.toNat % 128) 0 + 1 / ((i : ℚ) + 1))).sum := hset.symm
      _ ≤ _ := hrec

theorem rawEmbedding_length (t : String) : (rawEmbedding t).length = 128 := by
  simp [rawEmbedding, accumulate_length]

theorem rawEmbedding_empty : rawEmbedding "" = List.replicate 128 0 := rfl

theorem data_ne_nil_of_ne_empty (t : String) (h : t ≠ "") : t.data ≠ [] := by
  intro hd
  apply h
  cases t with
  | mk l =>
    have hl : l = [] := hd
    subst hl
    rfl

theorem rawEmbedding_sum_ge_one (t : String) (h : t ≠ "") :
    1 ≤ (rawEmbedding t).sum := by
  have hd := data_ne_nil_of_ne_empty t h
  rw [rawEmbedding]
  cases hdata : t.data with
  | nil => exact absurd hdata hd
  | cons c cs =>
    rw [accumulate]
    have hz : (List.replicate 128 (0 : ℚ)).sum = 0 := by simp
    have hlen : c.toNat % 128 < (List.replicate 128 (0 : ℚ)).length := by
      rw [List.length_replicate]
      exact Nat.mod_lt _ (by norm_num)
    have hset := sum_set_add (List.replicate 128 (0 : ℚ)) (c.toNat % 128)
      (1 / ((0 : ℚ) + 1)) hlen
    have hrec := accumulate_sum_le cs 1
      ((List.replicate 128 (0 : ℚ)).set (c.toNat % 128)
        ((List.replicate 128 (0 : ℚ)).getD (c.toNat % 128) 0 + 1 / ((0 : ℚ) + 1)))
      (by rw [List.length_set]; simp)
    have hone : ((List.replicate 128 (0 : ℚ)).set (c.toNat % 128)
        ((List.replicate 128 (0 : ℚ)).getD (c.toNat % 128) 0 + 1 / ((0 : ℚ) + 1))).sum = 1 := by
      rw [hset, hz]
      norm_num
    calc (1 : ℚ) = _ := hone.symm
      _ ≤ _ := hrec

theorem sqMagnitude_nil : sqMagnitude [] = 0 := rfl

theorem sqMagnitude_cons (x : ℚ) (rest : List ℚ) :
    sqMagnitude (x :: rest) = x * x + sqMagnitude rest := by
  simp [sqMagnitude]

theorem sqMagnitude_nonneg (e : List ℚ) : 0 ≤ sqMagnitude e := by
  induction e with
  | nil => simp [sqMagnitude_nil]
  | cons x rest ih =>
    rw [sqMagnitude_cons]
    have := mul_self_nonneg x
    linarith

theorem sum_eq_zero_of_sqMagnitude_eq_zero (e : List ℚ) (h : sqMagnitude e = 0) :
    e.sum = 0 := by
  induction e with
  | nil => rfl
  | cons x rest ih =>
    rw [sqMagnitude_cons] at h
    have h1 := mul_self_nonneg x
    have h2 := sqMagnitude_nonneg rest
    have hx : x * x = 0 := by linarith
    have hx0 : x = 0 := by
      by_contra hne
      exact hne (mul_self_eq_zero.mp hx)
    have hrest : sqMagnitude rest = 0 := by linarith
    simp [hx0, ih hrest]

theorem sqMagnitude_rawEmbedding_pos (t : String) (h : t ≠ "") :
    0 < sqMagnitude (rawEmbedding t) := by
  rcases lt_or_eq_of_le (sqMagnitude_nonneg (rawEmbedding t)) with hlt | heq
  · exact hlt
  · exfalso
    have hsum := sum_eq_zero_of_sqMagnitude_eq_zero (rawEmbedding t) heq.symm
    have hone := rawEmbedding_sum_ge_one t h
    rw [hsum] at hone
    norm_num at hone

theorem sum_sq_div (e : List ℚ) (m : ℝ) :
    ((e.map fun (x : ℚ) => ((x : ℝ) / m)).map fun y => y ^ 2).sum =
      ((sqMagnitude e : ℚ) : ℝ) / m ^ 2 := by
  induction e with
  | nil => simp [sqMagnitude_nil]
  | cons x rest ih =>
    rw [List.map_cons, List.map_cons, List.sum_cons, ih, sqMagnitude_cons]
    rw [div_pow]
    push_cast
    ring

theorem initIndex_note_to_id (m : EmbeddingManager) :
    (initIndex m).note_to_id = m.note_to_id := rfl

theorem initIndex_id_to_note (m : EmbeddingManager) :
    (initIndex m).id_to_note = m.id_to_note := rfl

theorem initIndex_next_id (m : EmbeddingManager) :
    (initIndex m).next_id = m.next_id := rfl

theorem add_note_note_to_id (m : EmbeddingManager) (note : Note) :
    (add_note m note).1.note_to_id = ainsert m.note_to_id note.id m.next_id := by
  by_cases h : m.index.isNone <;> simp [add_note, h, initIndex]

theorem add_note_id_to_note (m : EmbeddingManager) (note : Note) :
    (add_note m note).1.id_to_note = ainsert m.id_to_note m.next_id note.id := by
  by_cases h : m.index.isNone <;> simp [add_note, h, initIndex]

theorem add_note_next_id (m : EmbeddingManager) (note : Note) :
    (add_note m note).1.next_id = m.next_id + 1 := by
  by_cases h : m.index.isNone <;> simp [add_note, h, initIndex]

theorem add_note_snd (m : EmbeddingManager) (note : Note) :
    (add_note m note).2 = Except.ok () := by
  by_cases h : m.index.isNone <;> simp [add_note, h]

theorem add_note_index_isSome (m : EmbeddingManager) (note : Note) :
    (add_note m note).1.index.isSome = true := by
  by_cases h : m.index.isNone <;> simp [add_note, h]

theorem add_note_vector_mem (m : EmbeddingManager) (note : Note) :
    ∃ pts, (add_note m note).1.index = some { points := pts } ∧
      (generate_simple_embedding (note.title ++ " " ++ note.content),
        m.next_id) ∈ pts := by
  by_cases h : m.index.isNone
  · refine ⟨[(generate_simple_embedding (note.title ++ " " ++ note.content),
      m.next_id)], ?_, ?_⟩
    · simp [add_note, h, initIndex]
    · simp
  · refine ⟨(m.index.getD { points := [] }).points ++
      [(generate_simple_embedding (note.title ++ " " ++ note.content),
        m.next_id)], ?_, ?_⟩
    · simp [add_note, h, initIndex]
    · simp

theorem remove_note_index (m : EmbeddingManager) (note : Note) :
    (remove_note m note).1.index = m.index := by
  cases h : alookup m.note_to_id note.id <;> simp [remove_note, h]

theorem remove_note_next_id (m : EmbeddingManager) (note : Note) :
    (remove_note m note).1.next_id = m.next_id := by
  cases h : alookup m.note_to_id note.id <;> simp [remove_note, h]

theorem searchLoop_nil (R : List (Nat × String)) (c : Option ℚ) :
    searchLoop R c [] = [] := rfl

theorem mem_searchLoop (R : List (Nat × String)) (cutoff : Option ℚ) :
    ∀ (ns : List Neighbor) (ext : String), ext ∈ searchLoop R cutoff ns →
      ∃ n ∈ ns, alookup R n.d_id = some ext ∧
        ∀ c, cutoff = some c → n.distance ≤ c := by
  intro ns
  induction ns with
  | nil => intro ext h; simp [searchLoop] at h
  | cons n rest ih =>
    intro ext h
    by_cases hcut : cutoffExceeded cutoff n.distance
    · rw [searchLoop, if_pos hcut] at h
      obtain ⟨n', hn', hrest⟩ := ih ext h
      exact ⟨n', List.mem_cons_of_mem _ hn', hrest⟩
    · rw [searchLoop, if_neg hcut] at h
      cases hlook : alookup R n.d_id with
      | some v =>
        rw [hlook] at h
        rcases List.mem_cons.mp h with heq | hmem
        · refine ⟨n, List.mem_cons_self _ _, by rw [heq]; exact hlook, ?_⟩
          intro c hc
          rw [hc] at hcut
          simpa [cutoffExceeded] using hcut
        · obtain ⟨n', hn', hrest⟩ := ih ext hmem
          exact ⟨n', List.mem_cons_of_mem _ hn', hrest⟩
      | none =>
        rw [hlook] at h
        obtain ⟨n', hn', hrest⟩ := ih ext h
        exact ⟨n', List.mem_cons_of_mem _ hn', hrest⟩

theorem searchLoop_cutoff_eq_filter (R : List (Nat × String)) (c : ℚ) :
    ∀ ns : List Neighbor, searchLoop R (some c) ns =
      searchLoop R none (ns.filter fun n => decide (n.distance ≤ c)) := by
  intro ns
  induction ns with
  | nil => rfl
  | cons n rest ih =>
    by_cases h : c < n.distance
    · have hskip : cutoffExceeded (some c) n.distance = true := by
        simp [cutoffExceeded, h]
      have hdrop : (decide (n.distance ≤ c)) = false := by
        simp [not_le.mpr h]
      rw [searchLoop, if_pos hskip, List.filter_cons, hdrop]
      simpa using ih
    · have hkeep : cutoffExceeded (some c) n.distance = false := by
        simp [cutoffExceeded, h]
      have htake : (decide (n.distance ≤ c)) = true := by
        simp [not_lt.mp h]
      rw [searchLoop, if_neg (by simp [hkeep]), List.filter_cons, htake]
      simp only [if_true]
      rw [searchLoop, if_neg (by simp [cutoffExceeded])]
      cases hlook : alookup R n.d_id <;> simp [hlook, ih]

theorem searchLoop_cons (R : List (Nat × String)) (c : Option ℚ)
    (n : Neighbor) (rest : List Neighbor) :
    searchLoop R c (n :: rest) =
      if cutoffExceeded c n.distance then searchLoop R c rest
      else
        match alookup R n.d_id with
        | some note_id => note_id :: searchLoop R c rest
        | none => searchLoop R c rest := rfl

theorem searchLoop_mono (R : List (Nat × String)) (c1 c2 : ℚ) (h : c1 ≤ c2) :
    ∀ ns : List Neighbor,
      (searchLoop R (some c1) ns).Sublist (searchLoop R (some c2) ns) := by
  intro ns
  induction ns with
  | nil => exact List.Sublist.refl _
  | cons n rest ih =>
    rw [searchLoop_cons, searchLoop_cons]
    by_cases h2 : c2 < n.distance
    · have h1 : c1 < n.distance := lt_of_le_of_lt h h2
      rw [if_pos (by simp [cutoffExceeded, h1]), if_pos (by simp [cutoffExceeded, h2])]
      exact ih
    · rw [if_neg (show ¬cutoffExceeded (some c2) n.distance = true by
        simp [cutoffExceeded, h2])]
      by_cases h1 : c1 < n.distance
      · rw [if_pos (show cutoffExceeded (some c1) n.distance = true by
          simp [cutoffExceeded, h1])]
        cases hlook : alookup R n.d_id with
        | some v => simp only [hlook]; exact ih.cons v
        | none => simp only [hlook]; exact ih
      · rw [if_neg (show ¬cutoffExceeded (some c1) n.distance = true by
          simp [cutoffExceeded, h1])]
        cases hlook : alookup R n.d_id with
        | some v => simp only [hlook]; exact ih.cons₂ v
        | none => simp only [hlook]; exact ih

theorem searchLoop_skip_dead (R : List (Nat × String)) (c : Option ℚ)
    (n : Neighbor) (h : alookup R n.d_id = none) :
    ∀ ns1 ns2 : List Neighbor,
      searchLoop R c (ns1 ++ n :: ns2) = searchLoop R c (ns1 ++ ns2) := by
  intro ns1
  induction ns1 with
  | nil =>
    intro ns2
    by_cases hcut : cutoffExceeded c n.distance
    · simp [searchLoop, if_pos hcut]
    · simp [searchLoop, if_neg hcut, h]
  | cons n' rest ih =>
    intro ns2
    by_cases hcut : cutoffExceeded c n'.distance
    · simp only [List.cons_append, searchLoop, if_pos hcut]
      exact ih ns2
    · simp only [List.cons_append, searchLoop, if_neg hcut]
      cases hlook : alookup R n'.d_id <;> simp [ih ns2]

theorem search_fst (m : EmbeddingManager) (q : String) (k : Nat)
    (ns : List Neighbor) (c : Option ℚ) : (search m q k ns c).1 = m := by
  by_cases h : m.index.isNone <;> simp [search, h]

theorem add_note_pair (m : EmbeddingManager) (note : Note) :
    add_note m note = ((add_note m note).1, Except.ok ()) := by
  have h := add_note_snd m note
  cases hp : add_note m note with
  | mk a b =>
    rw [hp] at h
    simp only at h
    rw [h]

theorem addAll_nil (m : EmbeddingManager) : addAll m [] = (m, Except.ok ()) := rfl

theorem addAll_cons (m : EmbeddingManager) (n : Note) (rest : List Note) :
    addAll m (n :: rest) = addAll (add_note m n).1 rest := by
  rw [addAll, add_note_pair]

theorem update_note_eq_remove_then_add (m : EmbeddingManager) (note : Note) :
    update_note m note = remove_then_add m note := by
  rw [update_note, remove_then_add]
  by_cases hc : (alookup m.note_to_id note.id).isSome
  · rw [if_pos hc]
    cases hlf : alookup m.note_to_id note.id with
    | none => rw [hlf] at hc; simp at hc
    | some iid0 =>
      have hrm : remove_note m note =
          ({ m with note_to_id := aerase m.note_to_id note.id,
                    id_to_note := aerase m.id_to_note iid0 }, Except.ok ()) := by
        simp [remove_note, hlf]
      rw [hrm]
  · rw [if_neg hc]
    cases hlf : alookup m.note_to_id note.id with
    | some v => rw [hlf] at hc; simp at hc
    | none =>
      have hrm : remove_note m note = (m, Except.error EmbeddingError.NotFound) := by
        simp [remove_note, hlf]
      rw [hrm]

theorem MapInv_new : MapInv EmbeddingManager.new := by
  simp [MapInv, EmbeddingManager.new, alookup]

theorem MapInv_fresh_forward (m : EmbeddingManager) (h : MapInv m) (ext : String) :
    alookup m.note_to_id ext ≠ some m.next_id :=
  fun hc => lt_irrefl _ (h.2.1 ext m.next_id hc)

theorem MapInv_fresh_reverse (m : EmbeddingManager) (h : MapInv m) :
    alookup m.id_to_note m.next_id = none := by
  cases hl : alookup m.id_to_note m.next_id with
  | none => rfl
  | some ext => exact absurd (h.2.2 _ _ hl) (lt_irrefl _)

theorem MapInv_add (m : EmbeddingManager) (note : Note) (h : MapInv m) :
    MapInv (add_note m note).1 := by
  obtain ⟨h1, h2, h3⟩ := h
  simp only [MapInv, add_note_note_to_id, add_note_id_to_note, add_note_next_id]
  refine ⟨?_, ?_, ?_⟩
  · intro ext iid hl
    by_cases he : ext = note.id
    · subst he
      rw [alookup_ainsert_self] at hl
      injection hl with hinj
      rw [← hinj]
      exact alookup_ainsert_self _ _ _
    · rw [alookup_ainsert_ne _ _ _ _ he] at hl
      have hb := h2 ext iid hl
      have hne : iid ≠ m.next_id := Nat.ne_of_lt hb
      rw [alookup_ainsert_ne _ _ _ _ hne]
      exact h1 ext iid hl
  · intro ext iid hl
    by_cases he : ext = note.id
    · subst he
      rw [alookup_ainsert_self] at hl
      injection hl with hinj
      omega
    · rw [alookup_ainsert_ne _ _ _ _ he] at hl
      exact Nat.lt_succ_of_lt (h2 ext iid hl)
  · intro iid ext hl
    by_cases hi : iid = m.next_id
    · subst hi
      exact Nat.lt_succ_self _
    · rw [alookup_ainsert_ne _ _ _ _ hi] at hl
      exact Nat.lt_succ_of_lt (h3 iid ext hl)

theorem MapInv_remove (m : EmbeddingManager) (note : Note) (h : MapInv m) :
    MapInv (remove_note m note).1 := by
  obtain ⟨h1, h2, h3⟩ := h
  cases hlf : alookup m.note_to_id note.id with
  | none => simpa [remove_note, hlf, MapInv] using ⟨h1, h2, h3⟩
  | some iid0 =>
    simp only [remove_note, hlf, MapInv]
    refine ⟨?_, ?_, ?_⟩
    · intro ext iid hl
      by_cases he : ext = note.id
      · subst he
        rw [alookup_aerase_self] at hl
        cases hl
      · rw [alookup_aerase_ne _ _ _ he] at hl
        have hrev := h1 ext iid hl
        have hne : iid ≠ iid0 := by
          intro hEq
          subst hEq
          have ha := h1 note.id iid hlf
          rw [ha] at hrev
          injection hrev with hinj
          exact he hinj.symm
        rw [alookup_aerase_ne _ _ _ hne]
        exact hrev
    · intro ext iid hl
      by_cases he : ext = note.id
      · subst he
        rw [alookup_aerase_self] at hl
        cases hl
      · rw [alookup_aerase_ne _ _ _ he] at hl
        exact h2 ext iid hl
    · intro iid ext hl
      by_cases hi : iid = iid0
      · subst hi
        rw [alookup_aerase_self] at hl
        cases hl
      · rw [alookup_aerase_ne _ _ _ hi] at hl
        exact h3 iid ext hl

theorem MapInv_update (m : EmbeddingManager) (note : Note) (h : MapInv m) :
    MapInv (update_note m note).1 := by
  rw [update_note_eq_remove_then_add, remove_then_add]
  exact MapInv_add _ _ (MapInv_remove _ _ h)

theorem MapInv_addAll (ns : List Note) :
    ∀ m : EmbeddingManager, MapInv m → MapInv (addAll m ns).1 := by
  induction ns with
  | nil => intro m h; simpa [addAll_nil] using h
  | cons n rest ih =>
    intro m h
    rw [addAll_cons]
    exact ih _ (MapInv_add _ _ h)

theorem MapInv_rebuild (m : EmbeddingManager) (ns : List Note) :
    MapInv (rebuild_index m ns).1 := by
  simp only [rebuild_index]
  apply MapInv_addAll
  simp [MapInv, initIndex, alookup]

theorem NoGhost_add (a : String) (m : EmbeddingManager) (note : Note)
    (hg : NoGhost a m) (hne : note.id ≠ a) : NoGhost a (add_note m note).1 := by
  intro iid
  rw [add_note_id_to_note]
  by_cases hi : iid = m.next_id
  · subst hi
    rw [alookup_ainsert_self]
    intro hc
    injection hc with hc2
    exact hne hc2
  · rw [alookup_ainsert_ne _ _ _ _ hi]
    exact hg iid

theorem NoGhost_remove (a : String) (m : EmbeddingManager) (note : Note)
    (hg : NoGhost a m) : NoGhost a (remove_note m note).1 := by
  intro iid
  cases hlf : alookup m.note_to_id note.id with
  | none =>
    simp only [remove_note, hlf]
    exact hg iid
  | some iid0 =>
    simp only [remove_note, hlf]
    by_cases hi : iid = iid0
    · subst hi
      rw [alookup_aerase_self]
      simp
    · rw [alookup_aerase_ne _ _ _ hi]
      exact hg iid

theorem NoGhost_update (a : String) (m : EmbeddingManager) (note : Note)
    (hg : NoGhost a m) (hne : note.id ≠ a) : NoGhost a (update_note m note).1 := by
  rw [update_note_eq_remove_then_add, remove_then_add]
  exact NoGhost_add _ _ _ (NoGhost_remove _ _ _ hg) hne

theorem NoGhost_addAll (a : String) (ns : List Note) :
    ∀ m : EmbeddingManager, NoGhost a m → (∀ n ∈ ns, n.id ≠ a) →
      NoGhost a (addAll m ns).1 := by
  induction ns with
  | nil => intro m hg _; simpa [addAll_nil] using hg
  | cons n rest ih =>
    intro m hg hns
    rw [addAll_cons]
    exact ih _ (NoGhost_add _ _ _ hg (hns n (List.mem_cons_self _ _)))
      (fun n' hn' => hns n' (List.mem_cons_of_mem _ hn'))

theorem NoGhost_rebuild (a : String) (m : EmbeddingManager) (ns : List Note)
    (hns : ∀ n ∈ ns, n.id ≠ a) : NoGhost a (rebuild_index m ns).1 := by
  simp only [rebuild_index]
  apply NoGhost_addAll _ _ _ _ hns
  intro iid
  simp [initIndex, alookup]

theorem NoGhost_applyOp (a : String) (m : EmbeddingManager) (op : Op)
    (hg : NoGhost a m) (hop : avoidsId a op) : NoGhost a (applyOp m op) := by
  cases op with
  | addOp n => exact NoGhost_add _ _ _ hg hop
  | updateOp n => exact NoGhost_update _ _ _ hg hop
  | removeOp n => exact NoGhost_remove _ _ _ hg
  | rebuildOp ns => exact NoGhost_rebuild _ _ _ hop
  | searchOp q k nb c =>
    simp only [applyOp, search_fst]
    exact hg

theorem NoGhost_applyOps (a : String) (ops : List Op) :
    ∀ m : EmbeddingManager, NoGhost a m → (∀ op ∈ ops, avoidsId a op) →
      NoGhost a (applyOps m ops) := by
  induction ops with
  | nil => intro m hg _; simpa [applyOps] using hg
  | cons op rest ih =>
    intro m hg hops
    rw [applyOps]
    exact ih _ (NoGhost_applyOp _ _ _ hg (hops op (List.mem_cons_self _ _)))
      (fun op' hop' => hops op' (List.mem_cons_of_mem _ hop'))

theorem addAll_snd (ns : List Note) :
    ∀ m : EmbeddingManager, (addAll m ns).2 = Except.ok () := by
  induction ns with
  | nil => intro m; rfl
  | cons n rest ih =>
    intro m
    rw [addAll_cons]
    exact ih _

theorem addAll_next_id (ns : List Note) :
    ∀ m : EmbeddingManager, (addAll m ns).1.next_id = m.next_id + ns.length := by
  induction ns with
  | nil => intro m; simp [addAll_nil]
  | cons n rest ih =>
    intro m
    rw [addAll_cons, ih, add_note_next_id]
    simp [List.length_cons]
    omega

theorem addAll_index_isSome (ns : List Note) :
    ∀ m : EmbeddingManager, m.index.isSome = true →
      (addAll m ns).1.index.isSome = true := by
  induction ns with
  | nil => intro m h; simpa [addAll_nil] using h
  | cons n rest ih =>
    intro m h
    rw [addAll_cons]
    exact ih _ (add_note_index_isSome m n)

theorem addAll_forward_preserved (ns : List Note) (key : String)
    (hk : ∀ n ∈ ns, n.id ≠ key) :
    ∀ m : EmbeddingManager,
      alookup (addAll m ns).1.note_to_id key = alookup m.note_to_id key := by
  induction ns with
  | nil => intro m; simp [addAll_nil]
  | cons n rest ih =>
    intro m
    rw [addAll_cons, ih (fun n' hn' => hk n' (List.mem_cons_of_mem _ hn')),
      add_note_note_to_id,
      alookup_ainsert_ne _ _ _ _ (fun hEq => hk n (List.mem_cons_self _ _) hEq.symm)]

theorem addAll_reverse_preserved (ns : List Note) :
    ∀ (m : EmbeddingManager) (iid : Nat), iid < m.next_id →
      alookup (addAll m ns).1.id_to_note iid = alookup m.id_to_note iid := by
  induction ns with
  | nil => intro m iid _; simp [addAll_nil]
  | cons n rest ih =>
    intro m iid hlt
    rw [addAll_cons, ih _ iid (by rw [add_note_next_id]; omega),
      add_note_id_to_note, alookup_ainsert_ne _ _ _ _ (Nat.ne_of_lt hlt)]

theorem addAll_dense_lookup (ns : List Note) (hnodup : (ns.map Note.id).Nodup) :
    ∀ (m : EmbeddingManager) (i : Nat) (h : i < ns.length),
      alookup (addAll m ns).1.note_to_id (ns.get ⟨i, h⟩).id =
        some (m.next_id + i) ∧
      alookup (addAll m ns).1.id_to_note (m.next_id + i) =
        some (ns.get ⟨i, h⟩).id := by
  induction ns with
  | nil =>
    intro m i h
    simp at h
  | cons n rest ih =>
    intro m i h
    rw [List.map_cons, List.nodup_cons] at hnodup
    obtain ⟨hnotmem, hrest⟩ := hnodup
    cases i with
    | zero =>
      have hget : ((n :: rest).get ⟨0, h⟩) = n := rfl
      rw [hget, Nat.add_zero]
      constructor
      · rw [addAll_cons, addAll_forward_preserved rest n.id
          (fun n' hn' hEq => hnotmem (hEq ▸ List.mem_map_of_mem Note.id hn')),
          add_note_note_to_id, alookup_ainsert_self]
      · rw [addAll_cons, addAll_reverse_preserved rest (add_note m n).1 m.next_id
          (by rw [add_note_next_id]; omega),
          add_note_id_to_note, alookup_ainsert_self]
    | succ j =>
      have hj : j < rest.length := by simpa using h
      have := ih hrest (add_note m n).1 j hj
      rw [add_note_next_id] at this
      obtain ⟨hfwd, hrev⟩ := this
      constructor
      · rw [addAll_cons]
        have harith : m.next_id + 1 + j = m.next_id + (j + 1) := by omega
        rw [harith] at hfwd
        exact hfwd
      · rw [addAll_cons]
        have harith : m.next_id + 1 + j = m.next_id + (j + 1) := by omega
        rw [harith] at hrev
        exact hrev

theorem generate_length (t : String) :
    (generate_simple_embedding t).length = 128 := by
  simp only [generate_simple_embedding]
  split <;> simp [rawEmbedding_length]

theorem generate_empty : generate_simple_embedding "" = List.replicate 128 (0 : ℝ) := by
  simp only [generate_simple_embedding, rawEmbedding_empty]
  have hS : sqMagnitude (List.replicate 128 (0 : ℚ)) = 0 := by
    simp [sqMagnitude]
  rw [hS, if_neg (by simp)]
  simp [List.map_replicate]

theorem generate_nonempty_norm (t : String) (h : t ≠ "") :
    euclideanNorm (generate_simple_embedding t) = 1 := by
  have hS : 0 < sqMagnitude (rawEmbedding t) := sqMagnitude_rawEmbedding_pos t h
  have hSR : (0 : ℝ) < ((sqMagnitude (rawEmbedding t) : ℚ) : ℝ) := by
    exact_mod_cast hS
  have hmag : 0 < Real.sqrt ((sqMagnitude (rawEmbedding t) : ℚ) : ℝ) :=
    Real.sqrt_pos.mpr hSR
  simp only [generate_simple_embedding]
  rw [if_pos hmag, euclideanNorm, sum_sq_div,
    Real.sq_sqrt hSR.le, div_self (ne_of_gt hSR), Real.sqrt_one]

theorem okList_ok (l : List String) : okList (Except.ok l) = l := rfl

theorem NoGhost_search (a : String) (m : EmbeddingManager) (q : String)
    (k : Nat) (ns : List Neighbor) (c : Option ℚ) (hg : NoGhost a m) :
    a ∉ okList (search m q k ns c).2 := by
  intro hmem
  by_cases h : m.index.isNone
  · simp [search, h, okList] at hmem
  · simp only [search, h, if_false, Bool.false_eq_true, if_neg, okList] at hmem
    exact hg _ (mem_searchLoop m.id_to_note c ns a hmem).choose_spec.2.1

theorem NoGhost_add_then_remove (a : String) (m : EmbeddingManager) (note : Note)
    (hg : NoGhost a m) : NoGhost a (remove_note (add_note m note).1 note).1 := by
  intro iid
  have hfwd : alookup (add_note m note).1.note_to_id note.id = some m.next_id := by
    rw [add_note_note_to_id]
    exact alookup_ainsert_self _ _ _
  simp only [remove_note, hfwd, add_note_id_to_note]
  by_cases hi : iid = m.next_id
  · subst hi
    rw [alookup_aerase_self]
    simp
  · rw [alookup_aerase_ne _ _ _ hi, alookup_ainsert_ne _ _ _ _ hi]
    exact hg iid

/-- Claim C1 (counterexample).  The claim says search never returns an
external id via a tombstoned internal id — an id present in `id_to_note`
whose pair is absent from `note_to_id` — and in particular that after two
`add_note` calls for the same external id the first internal id is never
surfaced.  In the state reached by `add_note(docA)` twice from a fresh
manager, internal id 0 is exactly such a tombstone, yet a search whose
neighbor list contains id 0 (whose vector really is in the index) returns
`"a"` through it. -/
theorem search_surfaces_tombstone_of_double_add :
    alookup doubleAddState.id_to_note 0 = some "a" ∧
    alookup doubleAddState.note_to_id "a" = some 1 ∧
    okList (search doubleAddState "hello world" 5
      [{ d_id := 0, distance := 0 }] none).2 = ["a"] :=
  ⟨by decide, by decide, by decide⟩

/-- Claim C1 (amended).  Search skips an internal id exactly when it is
absent from the reverse mapping `id_to_note`: every returned external id
is the reverse image of some neighbor, and a neighbor whose internal id has
no reverse entry contributes nothing.  (An internal id tombstoned by
re-adding the same external id is still in `id_to_note` and can surface
that — still live — external id, as the counterexample shows.) -/
theorem search_skips_only_reverse_absent (m : EmbeddingManager) (q : String)
    (k : Nat) (ns : List Neighbor) (c : Option ℚ) :
    (∀ ext, ext ∈ okList (search m q k ns c).2 →
      ∃ n ∈ ns, alookup m.id_to_note n.d_id = some ext) ∧
    (∀ n : Neighbor, alookup m.id_to_note n.d_id = none →
      ∀ ns1 ns2, okList (search m q k (ns1 ++ n :: ns2) c).2 =
        okList (search m q k (ns1 ++ ns2) c).2) := by
  constructor
  · intro ext hmem
    by_cases h : m.index.isNone
    · simp [search, h, okList] at hmem
    · simp only [search, h, if_neg, okList] at hmem
      obtain ⟨n, hn, hlook, _⟩ := mem_searchLoop m.id_to_note c ns ext hmem
      exact ⟨n, hn, hlook⟩
  · intro n hdead ns1 ns2
    by_cases h : m.index.isNone
    · simp [search, h]
    · simp only [search, h, if_neg, okList]
      exact searchLoop_skip_dead m.id_to_note c n hdead ns1 ns2

/-- Witness for C1 (amended) at a concrete input: the search on
`doubleAddState` that returns `"a"` does so through a reverse-map entry of
its only neighbor. -/
theorem search_skips_only_reverse_absent_witness :
    ∃ n ∈ [({ d_id := 0, distance := 0 } : Neighbor)],
      alookup doubleAddState.id_to_note n.d_id = some "a" :=
  (search_skips_only_reverse_absent doubleAddState "hello world" 5
    [{ d_id := 0, distance := 0 }] none).1 "a" (by decide)

/-- Claim C2.  `update_note(doc)` equals `remove_note(doc)` with a NotFound
outcome discarded followed by `add_note(doc)`; it never returns NotFound;
afterwards the external id maps to the freshly assigned internal id
`next_id`, and (under the mapping invariant, which every reachable state
satisfies) no external id maps to the previously held internal id any
more. -/
theorem update_note_refines_remove_then_add (m : EmbeddingManager)
    (note : Note) (hInv : MapInv m) :
    update_note m note = remove_then_add m note ∧
    (update_note m note).2 = Except.ok () ∧
    alookup (update_note m note).1.note_to_id note.id = some m.next_id ∧
    (∀ iid, alookup m.note_to_id note.id = some iid →
      ∀ ext, alookup (update_note m note).1.note_to_id ext ≠ some iid) := by
  have heq := update_note_eq_remove_then_add m note
  refine ⟨heq, ?_, ?_, ?_⟩
  · rw [heq, remove_then_add, add_note_snd]
  · rw [heq, remove_then_add, add_note_note_to_id, alookup_ainsert_self,
      remove_note_next_id]
  · intro iid hold ext hc
    have hbound : iid < m.next_id := hInv.2.1 note.id iid hold
    have hrmfst : (remove_note m note).1.note_to_id =
        aerase m.note_to_id note.id := by
      simp [remove_note, hold]
    rw [heq, remove_then_add, add_note_note_to_id, remove_note_next_id,
      hrmfst] at hc
    by_cases he : ext = note.id
    · subst he
      rw [alookup_ainsert_self] at hc
      injection hc with hinj
      omega
    · rw [alookup_ainsert_ne _ _ _ _ he, alookup_aerase_ne _ _ _ he] at hc
      have h1 := hInv.1 ext iid hc
      have h2 := hInv.1 note.id iid hold
      rw [h2] at h1
      injection h1 with hinj
      exact he hinj.symm

/-- Witness for C2 at a concrete state (the fresh manager, which satisfies
the mapping invariant). -/
theorem update_note_refines_remove_then_add_witness :
    update_note EmbeddingManager.new docB = remove_then_add EmbeddingManager.new docB :=
  (update_note_refines_remove_then_add EmbeddingManager.new docB MapInv_new).1

/-- Claim C3.  With cutoff `C` every returned result comes from a neighbor
at distance at most `C` (equal distance kept, strictly larger skipped):
search with `some C` equals search over the neighbors filtered to distance
at most `C`; and for `C1 ≤ C2` the result list for `C1` is a subsequence of
the result list for `C2`. -/
theorem search_cutoff_inclusive_and_monotone (m : EmbeddingManager)
    (q : String) (k : Nat) (ns : List Neighbor) (c1 c2 : ℚ) :
    (search m q k ns (some c1)).2 =
      (search m q k (ns.filter fun n => decide (n.distance ≤ c1)) none).2 ∧
    (∀ ext, ext ∈ okList (search m q k ns (some c1)).2 →
      ∃ n ∈ ns, n.distance ≤ c1 ∧ alookup m.id_to_note n.d_id = some ext) ∧
    (c1 ≤ c2 → (okList (search m q k ns (some c1)).2).Sublist
      (okList (search m q k ns (some c2)).2)) := by
  refine ⟨?_, ?_, ?_⟩
  · by_cases h : m.index.isNone <;>
      simp [search, h, searchLoop_cutoff_eq_filter]
  · intro ext hmem
    by_cases h : m.index.isNone
    · simp [search, h, okList] at hmem
    · simp only [search, h, if_neg, okList] at hmem
      obtain ⟨n, hn, hlook, hdist⟩ := mem_searchLoop m.id_to_note (some c1) ns ext hmem
      exact ⟨n, hn, hdist c1 rfl, hlook⟩
  · intro hle
    by_cases h : m.index.isNone
    · simp [search, h, okList]
    · simp only [search, h, if_neg, okList]
      exact searchLoop_mono m.id_to_note c1 c2 hle ns

/-- Witness for C3 at a concrete state and cutoffs 1 ≤ 2. -/
theorem search_cutoff_inclusive_and_monotone_witness :
    (1 : ℚ) ≤ 2 ∧
    (okList (search doubleAddState "q" 5
      [{ d_id := 0, distance := 0 }] (some 1)).2).Sublist
      (okList (search doubleAddState "q" 5
        [{ d_id := 0, distance := 0 }] (some 2)).2) :=
  ⟨by decide, (search_cutoff_inclusive_and_monotone doubleAddState "q" 5
    [{ d_id := 0, distance := 0 }] 1 2).2.2 (by decide)⟩

/-- Claim C4.  `generate_simple_embedding` always returns a vector of 128
components; on the empty string it is the all-zero vector of Euclidean norm
0, and on a non-empty string its Euclidean norm is 1 (exactly, in the
real-number idealisation of `f32`). -/
theorem generate_embedding_shape_and_norm (t : String) :
    (generate_simple_embedding t).length = 128 ∧
    (t = "" → generate_simple_embedding t = List.replicate 128 (0 : ℝ) ∧
      euclideanNorm (generate_simple_embedding t) = 0) ∧
    (t ≠ "" → euclideanNorm (generate_simple_embedding t) = 1) := by
  refine ⟨generate_length t, ?_, generate_nonempty_norm t⟩
  intro h
  subst h
  refine ⟨generate_empty, ?_⟩
  rw [generate_empty, euclideanNorm]
  simp [List.map_replicate]

/-- Witness for C4 at the concrete inputs `""` and `"a"`. -/
theorem generate_embedding_shape_and_norm_witness :
    euclideanNorm (generate_simple_embedding "") = 0 ∧
    euclideanNorm (generate_simple_embedding "a") = 1 :=
  ⟨((generate_embedding_shape_and_norm "").2.1 rfl).2,
   (generate_embedding_shape_and_norm "a").2.2 (by decide)⟩

/-- Claim C5.  `remove_note` fails with NotFound iff the external id is
absent from `note_to_id`, in which case the state is unchanged; when
present it succeeds and deletes the forward entry and the corresponding
reverse entry; a second remove of the same document therefore fails with
NotFound. -/
theorem remove_note_snd_of_none (m : EmbeddingManager) (note : Note)
    (h : alookup m.note_to_id note.id = none) :
    (remove_note m note).2 = Except.error EmbeddingError.NotFound := by
  simp [remove_note, h]

theorem remove_note_notfound_iff (m : EmbeddingManager) (note : Note) :
    ((remove_note m note).2 = Except.error EmbeddingError.NotFound ↔
      alookup m.note_to_id note.id = none) ∧
    ((remove_note m note).2 = Except.error EmbeddingError.NotFound →
      (remove_note m note).1 = m) ∧
    (∀ iid, alookup m.note_to_id note.id = some iid →
      (remove_note m note).2 = Except.ok () ∧
      alookup (remove_note m note).1.note_to_id note.id = none ∧
      alookup (remove_note m note).1.id_to_note iid = none) ∧
    ((remove_note m note).2 = Except.ok () →
      (remove_note (remove_note m note).1 note).2 =
        Except.error EmbeddingError.NotFound) := by
  cases hlf : alookup m.note_to_id note.id with
  | none =>
    refine ⟨by simp [remove_note, hlf], by simp [remove_note, hlf], ?_, ?_⟩
    · intro iid h
      cases h
    · intro h
      simp [remove_note, hlf] at h
  | some iid0 =>
    refine ⟨by simp [remove_note, hlf], by simp [remove_note, hlf], ?_, ?_⟩
    · intro iid h
      injection h with hinj
      subst hinj
      refine ⟨by simp [remove_note, hlf], ?_, ?_⟩
      · simp [remove_note, hlf, alookup_aerase_self]
      · simp [remove_note, hlf, alookup_aerase_self]
    · intro _
      have hgone : alookup (remove_note m note).1.note_to_id note.id = none := by
        simp [remove_note, hlf, alookup_aerase_self]
      exact remove_note_snd_of_none _ _ hgone

/-- Witness for C5: removing `docA` right after adding it succeeds. -/
theorem remove_note_notfound_iff_witness :
    (remove_note (add_note EmbeddingManager.new docA).1 docA).2 = Except.ok () :=
  ((remove_note_notfound_iff (add_note EmbeddingManager.new docA).1 docA).2.2.1
    0 (by decide)).1

/-- Claim C6 (counterexample).  The claim says that in any state reached by
`add_note(docA)` followed by a successful `remove_note(docA)` (no later
add/update of docA), no search returns docA's id.  Starting from a state in
which `docA` had already been added once (`doubleAddState` is reached by
`add_note(docA)` twice), the final `add_note(docA); remove_note(docA)`
leaves the stale reverse entry `0 ↦ "a"` behind, and a search whose
neighbor list contains the (really inserted) internal id 0 still returns
`"a"`. -/
theorem removed_note_still_surfaced :
    (remove_note doubleAddState docA).2 = Except.ok () ∧
    docA.id ∈ okList (search removedDupState "hello world" 5
      [{ d_id := 0, distance := 0 }] none).2 :=
  ⟨by rfl, by decide⟩

/-- Claim C6 (amended).  If no internal id of the starting state resolves
to the document's external id in the reverse map (e.g. the document was
never double-added — any state built without duplicate adds of it), then
after `add_note(doc)` and the then-always-successful `remove_note(doc)`,
followed by any operations that do not add or update that id, no search —
any query, any k, any cutoff, any neighbor list — returns the id, even
though the vector inserted by the add still resides in the index. -/
theorem remove_hides_without_prior_duplicates (m : EmbeddingManager)
    (doc : Note) (hghost : ∀ iid, alookup m.id_to_note iid ≠ some doc.id)
    (ops : List Op) (hops : ∀ op ∈ ops, avoidsId doc.id op)
    (q : String) (k : Nat) (ns : List Neighbor) (c : Option ℚ) :
    (remove_note (add_note m doc).1 doc).2 = Except.ok () ∧
    (∃ pts, (remove_note (add_note m doc).1 doc).1.index = some { points := pts } ∧
      (generate_simple_embedding (doc.title ++ " " ++ doc.content), m.next_id) ∈ pts) ∧
    doc.id ∉ okList (search (applyOps (remove_note (add_note m doc).1 doc).1 ops)
      q k ns c).2 := by
  have hfwd : alookup (add_note m doc).1.note_to_id doc.id = some m.next_id := by
    rw [add_note_note_to_id]
    exact alookup_ainsert_self _ _ _
  refine ⟨by simp [remove_note, hfwd], ?_, ?_⟩
  · obtain ⟨pts, hidx, hmem⟩ := add_note_vector_mem m doc
    exact ⟨pts, by rw [remove_note_index]; exact hidx, hmem⟩
  · exact NoGhost_search doc.id _ q k ns c
      (NoGhost_applyOps doc.id ops _ (NoGhost_add_then_remove doc.id m doc hghost) hops)

/-- Witness for C6 (amended) from the fresh manager with no further
operations. -/
theorem remove_hides_without_prior_duplicates_witness :
    docA.id ∉ okList (search
      (applyOps (remove_note (add_note EmbeddingManager.new docA).1 docA).1 [])
      "hello world" 5 [{ d_id := 0, distance := 0 }] none).2 :=
  (remove_hides_without_prior_duplicates EmbeddingManager.new docA
    (fun iid h => by simp [EmbeddingManager.new, alookup] at h)
    [] (fun op h => absurd h (List.not_mem_nil op))
    "hello world" 5 [{ d_id := 0, distance := 0 }] none).2.2

/-- Claim C7.  On a manager whose index was never allocated, search returns
`Ok` with the empty sequence — never an error — for every query, k,
neighbor list and cutoff, leaving the state untouched. -/
theorem search_on_unallocated_index (m : EmbeddingManager) (q : String)
    (k : Nat) (ns : List Neighbor) (c : Option ℚ) (h : m.index = none) :
    search m q k ns c = (m, Except.ok []) := by
  simp [search, h]

/-- Witness for C7 at the fresh manager. -/
theorem search_on_unallocated_index_witness :
    search EmbeddingManager.new "anything" 5 [] none =
      (EmbeddingManager.new, Except.ok []) :=
  search_on_unallocated_index EmbeddingManager.new "anything" 5 [] none rfl

/-- Claim C8 (counterexample).  The claim quantifies over every list of
documents; for a list whose two documents share the external id `"a"`, the
second insert overwrites the forward entry of the first, so after
`rebuild_index` the forward mapping does not assign internal id `i` to
document `i` for every position (`"a"` maps to 1, not 0), although
`next_id` does equal the list length. -/
theorem rebuild_duplicate_ids_counterexample :
    (rebuild_index EmbeddingManager.new [docA, docA2]).1.next_id = 2 ∧
    docA.id = "a" ∧ docA2.id = "a" ∧
    alookup (rebuild_index EmbeddingManager.new [docA, docA2]).1.note_to_id "a" =
      some 1 ∧
    ¬ (∀ i (h : i < ([docA, docA2] : List Note).length),
        alookup (rebuild_index EmbeddingManager.new [docA, docA2]).1.note_to_id
          (([docA, docA2] : List Note).get ⟨i, h⟩).id = some i) := by
  refine ⟨by decide, rfl, rfl, by decide, ?_⟩
  intro hall
  exact absurd (hall 0 (by decide)) (by decide)

/-- Claim C8 (amended).  For every starting state and every list of
documents with pairwise-distinct external ids, `rebuild_index` succeeds,
discards the old state (the net effect below depends only on the supplied
list), allocates a fresh index, resets the counter, and re-adds the
documents in order: document `i` holds internal id `i` in both mapping
directions and `next_id` ends at the list length (the latter also without
the distinctness hypothesis). -/
theorem rebuild_assigns_dense_ids (m : EmbeddingManager) (notes : List Note)
    (hnodup : (notes.map Note.id).Nodup) :
    (rebuild_index m notes).2 = Except.ok () ∧
    (rebuild_index m notes).1.next_id = notes.length ∧
    (rebuild_index m notes).1.index.isSome = true ∧
    ∀ i (h : i < notes.length),
      alookup (rebuild_index m notes).1.note_to_id (notes.get ⟨i, h⟩).id =
        some i ∧
      alookup (rebuild_index m notes).1.id_to_note i =
        some (notes.get ⟨i, h⟩).id := by
  simp only [rebuild_index]
  refine ⟨addAll_snd _ _, ?_, addAll_index_isSome _ _ (by simp [initIndex]), ?_⟩
  · rw [addAll_next_id]
    simp [initIndex]
  · intro i h
    have hdense := addAll_dense_lookup notes hnodup
      (initIndex { index := none, note_to_id := [], id_to_note := [], next_id := 0 })
      i h
    simpa [initIndex] using hdense

/-- Witness for C8 (amended) on a two-document list with distinct ids. -/
theorem rebuild_assigns_dense_ids_witness :
    (([docA, docB] : List Note).map Note.id).Nodup ∧
    (rebuild_index EmbeddingManager.new [docA, docB]).1.next_id = 2 :=
  ⟨by decide,
   (rebuild_assigns_dense_ids EmbeddingManager.new [docA, docB] (by decide)).2.1⟩

/-- Claim C9.  `generate_simple_embedding` is deterministic: it is a pure
function of the text alone (the Rust function reads no state besides its
argument, which the embedding reflects), so equal inputs give equal
vectors. -/
theorem generate_embedding_deterministic (s t : String) (h : s = t) :
    generate_simple_embedding s = generate_simple_embedding t := by
  rw [h]

/-- Witness for C9 at a concrete repeated input. -/
theorem generate_embedding_deterministic_witness :
    generate_simple_embedding "a" = generate_simple_embedding "a" :=
  generate_embedding_deterministic "a" "a" rfl

/-- Claim C10.  Every operation preserves the mapping invariant — each
forward pair `(ext, iid)` is mirrored by `id_to_note iid = ext`, and every
internal id in either map is below `next_id`; search does not change the
state at all; consequently the id `next_id` that the next add will assign
occurs in neither mapping (ids are never reused within one index
instance). -/
theorem manager_ops_preserve_mapping_invariant (m : EmbeddingManager)
    (note : Note) (notes : List Note) (q : String) (k : Nat)
    (ns : List Neighbor) (c : Option ℚ) (h : MapInv m) :
    MapInv (add_note m note).1 ∧
    MapInv (update_note m note).1 ∧
    MapInv (remove_note m note).1 ∧
    MapInv (rebuild_index m notes).1 ∧
    (search m q k ns c).1 = m ∧
    (∀ ext, alookup m.note_to_id ext ≠ some m.next_id) ∧
    alookup m.id_to_note m.next_id = none :=
  ⟨MapInv_add m note h, MapInv_update m note h, MapInv_remove m note h,
   MapInv_rebuild m notes, search_fst m q k ns c,
   MapInv_fresh_forward m h, MapInv_fresh_reverse m h⟩

/-- Witness for C10 at the fresh manager, which satisfies the invariant. -/
theorem manager_ops_preserve_mapping_invariant_witness :
    alookup EmbeddingManager.new.id_to_note EmbeddingManager.new.next_id = none :=
  (manager_ops_preserve_mapping_invariant EmbeddingManager.new docA [] "q" 1 []
    none MapInv_new).2.2.2.2.2.2
